import Mathlib

/-!
Verification of the local paper-metadata store of `server.py`.

Strings are modelled as lists of characters (`Str`). The papers root
directory is modelled as a list of entries, each with a name, a flag for
being a directory, and the state of its `papers_info.json` file: missing,
present-but-unparseable, or parsed into an association list from paper id
to record (Python dicts preserve insertion order, and assignment to an
existing key keeps its position while a new key is appended at the end;
`dictInsert` mirrors exactly that).
-/

abbrev Str := List Char

def lit (s : String) : Str := s.data

/-- A stored paper record, the value type of one namespace's mapping. -/
structure PaperInfo where
  title : Str
  authors : List Str
  summary : Str
  pdf_url : Str
  published : Str
deriving DecidableEq

/-- One raw search result as consumed by `search_papers`: a short id plus
the fields projected into a `PaperInfo`. -/
structure RawResult where
  short_id : Str
  title : Str
  authors : List Str
  summary : Str
  pdf_url : Str
  published : Str
deriving DecidableEq

abbrev PapersDict := List (Str × PaperInfo)

/-- State of a namespace's `papers_info.json` file. -/
inductive NsFile where
  | missing : NsFile
  | corrupt : NsFile
  | valid : PapersDict → NsFile
deriving DecidableEq

/-- One entry directly under the papers root. -/
structure RootEntry where
  name : Str
  isDir : Bool
  nsFile : NsFile
deriving DecidableEq

abbrev PapersRoot := List RootEntry

/-- Python `topic.lower()` (per-character lowering). -/
def lowerStr (s : Str) : Str := s.map Char.toLower

/-- Python `.replace(" ", "_")`. -/
def replaceSpaces (s : Str) : Str := s.map (fun c => if c = ' ' then '_' else c)

/-- The derived namespace name: `topic.lower().replace(" ", "_")`. -/
def normalizeTopic (topic : Str) : Str := replaceSpaces (lowerStr topic)

/-- Projection of a raw result to the stored record (the dict literal built
in the loop body of `search_papers`). -/
def toPaperInfo (r : RawResult) : PaperInfo :=
  { title := r.title, authors := r.authors, summary := r.summary,
    pdf_url := r.pdf_url, published := r.published }

/-- Python dict assignment `d[k] = v` on an association list: replace the
binding of `k` in place if present, otherwise append at the end. -/
def dictInsert : PapersDict → Str → PaperInfo → PapersDict
  | [], k, v => [(k, v)]
  | (k2, v2) :: rest, k, v =>
      if k2 = k then (k, v) :: rest else (k2, v2) :: dictInsert rest k v

/-- Python `k in d` / `d[k]` as an optional lookup. -/
def dictLookup : PapersDict → Str → Option PaperInfo
  | [], _ => none
  | (k2, v2) :: rest, k => if k2 = k then some v2 else dictLookup rest k

def dictKeys (m : PapersDict) : List Str := m.map Prod.fst

/-- Number of bindings of key `k` in the mapping. -/
def countKey : PapersDict → Str → Nat
  | [], _ => 0
  | (k2, _) :: rest, k => (if k2 = k then 1 else 0) + countKey rest k

/-- Recovery around `json.load` in `search_papers`: a missing or unparseable file
yields the empty mapping. -/
def loadOrEmpty : NsFile → PapersDict
  | NsFile.missing => []
  | NsFile.corrupt => []
  | NsFile.valid m => m

/-- First root entry with the given name (file-system names are unique; a
generic list of entries keeps the first match, as `os.path` resolution
would). -/
def findEntry : PapersRoot → Str → Option RootEntry
  | [], _ => none
  | e :: rest, ns => if e.name = ns then some e else findEntry rest ns

/-- State of `<papers-root>/<ns>/papers_info.json`: present only when a
directory named `ns` exists; a plain file named `ns` has no such child. -/
def lookupNsFile (root : PapersRoot) (ns : Str) : NsFile :=
  match findEntry root ns with
  | some e => if e.isDir then e.nsFile else NsFile.missing
  | none => NsFile.missing

/-- The mapping `search_papers` starts from for a namespace. -/
def currentDict (root : PapersRoot) (ns : Str) : PapersDict :=
  loadOrEmpty (lookupNsFile root ns)

/-- Whole-file write of the updated mapping: replaces the first entry named
`ns` (made a directory with a valid file), or creates it. -/
def setNs : PapersRoot → Str → PapersDict → PapersRoot
  | [], ns, m => [⟨ns, true, NsFile.valid m⟩]
  | e :: rest, ns, m =>
      if e.name = ns then ⟨ns, true, NsFile.valid m⟩ :: rest
      else e :: setNs rest ns m

/-- The `for paper in papers` loop of `search_papers`: threads the mapping
through `dictInsert` and collects the short ids in input order. -/
def process_papers : PapersDict → List RawResult → PapersDict × List Str
  | m, [] => (m, [])
  | m, r :: rest =>
      let out := process_papers (dictInsert m r.short_id (toPaperInfo r)) rest
      (out.1, r.short_id :: out.2)

/-- Model of `search_papers`, state-passing. `none` models the one hard failure:
`os.makedirs` raising because a non-directory already bears the derived
name. Otherwise returns the new root and the list of ids. -/
def search_papers (root : PapersRoot) (topic : Str) (results : List RawResult) :
    Option (PapersRoot × List Str) :=
  let ns := normalizeTopic topic
  match findEntry root ns with
  | some e =>
      if e.isDir then
        let out := process_papers (loadOrEmpty e.nsFile) results
        some (setNs root ns out.1, out.2)
      else none
  | none =>
      let out := process_papers [] results
      some (setNs root ns out.1, out.2)

/-- Python `json.dumps` string escaping: quote, backslash, and the control
characters newline, tab, carriage return, backspace and form feed. (The
`\uXXXX` escapes of the remaining control characters and of non-ASCII text
under `ensure_ascii=True` are not modelled; no theorem below depends on
the dumped text.) -/
def jsonEscape : Str → Str
  | [] => []
  | c :: cs =>
      (if c = '\"' then ['\\', '\"']
       else if c = '\\' then ['\\', '\\']
       else if c = '\n' then ['\\', 'n']
       else if c = '\t' then ['\\', 't']
       else if c = '\r' then ['\\', 'r']
       else if c = '\x08' then ['\\', 'b']
       else if c = '\x0c' then ['\\', 'f']
       else [c]) ++ jsonEscape cs

def jsonStr (s : Str) : Str := '\"' :: (jsonEscape s ++ ['\"'])

def jsonAuthorsRest : List Str → Str
  | [] => []
  | a :: rest => lit ",\n    " ++ jsonStr a ++ jsonAuthorsRest rest

def jsonAuthors : List Str → Str
  | [] => lit "[]"
  | a :: rest => lit "[\n    " ++ jsonStr a ++ jsonAuthorsRest rest ++ lit "\n  ]"

/-- Python `json.dumps(paper_info, indent=2)` for one record. -/
def dumpRecord (p : PaperInfo) : Str :=
  lit "\x7b\n  " ++ jsonStr (lit "title") ++ lit ": " ++ jsonStr p.title
  ++ lit ",\n  " ++ jsonStr (lit "authors") ++ lit ": " ++ jsonAuthors p.authors
  ++ lit ",\n  " ++ jsonStr (lit "summary") ++ lit ": " ++ jsonStr p.summary
  ++ lit ",\n  " ++ jsonStr (lit "pdf_url") ++ lit ": " ++ jsonStr p.pdf_url
  ++ lit ",\n  " ++ jsonStr (lit "published") ++ lit ": " ++ jsonStr p.published
  ++ lit "\n\x7d"

/-- The not-found sentence of `extract_info`. -/
def notFoundMsg (paper_id : Str) : Str :=
  lit "There\x27s no saved information related to paper " ++ paper_id ++ lit "."

/-- The papers root location itself. `os.listdir(PAPER_DIR)` raises
`FileNotFoundError` when the root directory does not exist, so an absent
root is a distinct state from a root whose listing is empty. -/
inductive PapersFS where
  | absent : PapersFS
  | present : PapersRoot → PapersFS
deriving DecidableEq

/-- The `for item in os.listdir(PAPER_DIR)` loop of `extract_info`: only
directories whose file is present and parseable are consulted; a hit
returns the dumped record; a missing or corrupt file is skipped (the
`isfile` guard and the except clause). -/
def extract_info_loop (root : PapersRoot) (paper_id : Str) : Str :=
  match root with
  | [] => notFoundMsg paper_id
  | e :: rest =>
      if e.isDir then
        match e.nsFile with
        | NsFile.valid papers_info =>
            match dictLookup papers_info paper_id with
            | some p => dumpRecord p
            | none => extract_info_loop rest paper_id
        | NsFile.missing => extract_info_loop rest paper_id
        | NsFile.corrupt => extract_info_loop rest paper_id
      else extract_info_loop rest paper_id

/-- Model of `extract_info`. The `os.listdir(PAPER_DIR)` call sits outside
the try block, so with the papers root directory absent the function
raises `FileNotFoundError` — modelled as `none`; otherwise the scan of the
listing runs to completion and its string is returned. -/
def extract_info (fs : PapersFS) (paper_id : Str) : Option Str :=
  match fs with
  | PapersFS.absent => none
  | PapersFS.present root => some (extract_info_loop root paper_id)

/-- Python `os.path.exists(papers_file)`: true when the file is present, parseable
or not. -/
def nsFilePresent : NsFile → Bool
  | NsFile.missing => false
  | NsFile.corrupt => true
  | NsFile.valid _ => true

/-- The `folders` list of `get_available_folders`: directories whose
`papers_info.json` exists (validity is not checked). -/
def qualifying : PapersRoot → List Str
  | [] => []
  | e :: rest =>
      if e.isDir && nsFilePresent e.nsFile then e.name :: qualifying rest
      else qualifying rest

def renderFolderLines : List Str → Str
  | [] => []
  | f :: fs => lit "- " ++ f ++ lit "\n" ++ renderFolderLines fs

/-- Model of `get_available_folders`: titled list of qualifying folders, with the
trailing usage hint interpolating the last loop variable, or the explicit
no-topics message. -/
def get_available_folders (root : PapersRoot) : Str :=
  let folders := qualifying root
  let content := lit "# Available Topics\n\n"
  match folders with
  | [] => content ++ lit "No topics found.\n"
  | f :: fs =>
      content ++ renderFolderLines (f :: fs)
      ++ lit "\nUse @" ++ (f :: fs).getLastD []
      ++ lit " to access papers in that topic.\n"

/-- Python `.replace('_', ' ')`. -/
def underscoresToSpaces (s : Str) : Str := s.map (fun c => if c = '_' then ' ' else c)

def titleGo : Bool → Str → Str
  | _, [] => []
  | prevAlpha, c :: cs =>
      if c.isAlpha then (if prevAlpha then c.toLower else c.toUpper) :: titleGo true cs
      else c :: titleGo false cs

/-- Python `str.title()` (ASCII letters). -/
def titleStr (s : Str) : Str := titleGo false s

def natToStr (n : Nat) : Str := (Nat.repr n).data

def joinAuthors : List Str → Str
  | [] => []
  | [a] => a
  | a :: b :: rest => a ++ lit ", " ++ joinAuthors (b :: rest)

/-- One paper's markdown section in `get_topic_papers`: note the summary is
cut to its first 500 characters and `...` is appended unconditionally. -/
def renderPaper (paper_id : Str) (p : PaperInfo) : Str :=
  lit "## " ++ p.title ++ lit "\n"
  ++ lit "- **Paper ID**: " ++ paper_id ++ lit "\n"
  ++ lit "- **Authors**: " ++ joinAuthors p.authors ++ lit "\n"
  ++ lit "- **Published**: " ++ p.published ++ lit "\n"
  ++ lit "- **PDF URL**: [" ++ p.pdf_url ++ lit "](" ++ p.pdf_url ++ lit ")\n\n"
  ++ lit "### Summary\n" ++ p.summary.take 500 ++ lit "...\n\n"
  ++ lit "---\n\n"

def renderAll : PapersDict → Str
  | [] => []
  | (paper_id, p) :: rest => renderPaper paper_id p ++ renderAll rest

/-- Message of `get_topic_papers` when the namespace file does not exist. -/
def noPapersMsg (topic : Str) : Str :=
  lit "# No papers found for topic: " ++ topic
  ++ lit "\n\nTry searching for papers on this topic first."

/-- Message of `get_topic_papers` when the namespace file fails to parse. -/
def corruptMsg (topic : Str) : Str :=
  lit "# Error reading papers data for " ++ topic
  ++ lit "\n\nThe papers data file is corrupted."

/-- Model of `get_topic_papers`: resolve the namespace exactly as `search_papers`
does, and render its records, or one of the two fallback messages. -/
def get_topic_papers (root : PapersRoot) (topic : Str) : Str :=
  let topic_dir := normalizeTopic topic
  match lookupNsFile root topic_dir with
  | NsFile.missing => noPapersMsg topic
  | NsFile.corrupt => corruptMsg topic
  | NsFile.valid papers_data =>
      lit "# Papers on " ++ titleStr (underscoresToSpaces topic) ++ lit "\n\n"
      ++ lit "Total papers: " ++ natToStr papers_data.length ++ lit "\n\n"
      ++ renderAll papers_data

/-! ## Dictionary lemmas -/

theorem dictKeys_nil : dictKeys [] = [] := rfl

theorem dictKeys_cons (k2 : Str) (v2 : PaperInfo) (rest : PapersDict) :
    dictKeys ((k2, v2) :: rest) = k2 :: dictKeys rest := rfl

theorem dictLookup_insert_self (m : PapersDict) (k : Str) (v : PaperInfo) :
    dictLookup (dictInsert m k v) k = some v := by
  induction m with
  | nil => simp [dictInsert, dictLookup]
  | cons p rest ih =>
      obtain ⟨k2, v2⟩ := p
      by_cases h : k2 = k
      · simp [dictInsert, dictLookup, h]
      · simp [dictInsert, dictLookup, h, ih]

theorem dictLookup_insert_other (m : PapersDict) (k : Str) (v : PaperInfo)
    (k2 : Str) (hne : k2 ≠ k) :
    dictLookup (dictInsert m k v) k2 = dictLookup m k2 := by
  have hne2 : ¬(k = k2) := fun hc => hne hc.symm
  induction m with
  | nil => simp [dictInsert, dictLookup, hne2]
  | cons p rest ih =>
      obtain ⟨k3, v3⟩ := p
      by_cases h : k3 = k
      · subst h
        simp [dictInsert, dictLookup, hne, hne2]
      · by_cases h2 : k3 = k2
        · simp [dictInsert, dictLookup, h, h2, hne, hne2]
        · simp [dictInsert, dictLookup, h, h2, ih]

theorem dictKeys_insert (m : PapersDict) (k : Str) (v : PaperInfo) :
    dictKeys (dictInsert m k v) =
      if k ∈ dictKeys m then dictKeys m else dictKeys m ++ [k] := by
  induction m with
  | nil => simp [dictInsert, dictKeys_nil, dictKeys_cons]
  | cons p rest ih =>
      obtain ⟨k2, v2⟩ := p
      by_cases h : k2 = k
      · subst h
        simp only [dictInsert, if_pos rfl, dictKeys_cons, if_true]
        rw [if_pos (List.mem_cons_self _ _)]
      · have hne : ¬(k = k2) := fun hc => h hc.symm
        by_cases h3 : k ∈ dictKeys rest
        · simp only [if_pos h3] at ih
          simp only [dictInsert, if_neg h, dictKeys_cons, ih]
          rw [if_pos (List.mem_cons_of_mem _ h3)]
        · simp only [if_neg h3] at ih
          simp only [dictInsert, if_neg h, dictKeys_cons, ih]
          have hnm : k ∉ k2 :: dictKeys rest := by
            intro hc
            rcases List.mem_cons.mp hc with h4 | h4
            · exact hne h4
            · exact h3 h4
          rw [if_neg hnm, List.cons_append]

theorem dictKeys_insert_nodup (m : PapersDict) (k : Str) (v : PaperInfo)
    (h : (dictKeys m).Nodup) : (dictKeys (dictInsert m k v)).Nodup := by
  rw [dictKeys_insert]
  by_cases hm : k ∈ dictKeys m
  · simpa [hm] using h
  · rw [if_neg hm, List.nodup_append]
    refine ⟨h, List.nodup_singleton k, ?_⟩
    intro a ha hb
    rw [List.mem_singleton] at hb
    subst hb
    exact hm ha

theorem countKey_eq_zero (m : PapersDict) (k : Str)
    (h : k ∉ dictKeys m) : countKey m k = 0 := by
  induction m with
  | nil => simp [countKey]
  | cons p rest ih =>
      obtain ⟨k2, v2⟩ := p
      rw [dictKeys_cons] at h
      have h1 : ¬(k2 = k) := by
        intro hc
        subst hc
        exact h (List.mem_cons_self _ _)
      have h2 : k ∉ dictKeys rest := by
        intro hc
        exact h (List.mem_cons_of_mem _ hc)
      simp only [countKey, if_neg h1, ih h2]

theorem countKey_eq_one (m : PapersDict) (k : Str) (v : PaperInfo)
    (hnd : (dictKeys m).Nodup) (hl : dictLookup m k = some v) :
    countKey m k = 1 := by
  induction m with
  | nil => simp [dictLookup] at hl
  | cons p rest ih =>
      obtain ⟨k2, v2⟩ := p
      rw [dictKeys_cons] at hnd
      have hnd2 : (dictKeys rest).Nodup := hnd.of_cons
      by_cases h : k2 = k
      · subst h
        have hk : k2 ∉ dictKeys rest := (List.nodup_cons.mp hnd).1
        simp [countKey, countKey_eq_zero rest k2 hk]
      · simp only [dictLookup, if_neg h] at hl
        simp only [countKey, if_neg h, ih hnd2 hl]

/-! ## Loop lemmas for `search_papers` -/

theorem process_papers_snd (m : PapersDict) (rs : List RawResult) :
    (process_papers m rs).2 = rs.map RawResult.short_id := by
  induction rs generalizing m with
  | nil => simp [process_papers]
  | cons r rest ih => simp [process_papers, ih]

theorem process_papers_lookup_not_mem (m : PapersDict) (rs : List RawResult)
    (k : Str) (h : k ∉ rs.map RawResult.short_id) :
    dictLookup (process_papers m rs).1 k = dictLookup m k := by
  induction rs generalizing m with
  | nil => simp [process_papers]
  | cons r rest ih =>
      have h1 : k ≠ r.short_id := by
        intro hc
        exact h (by simp [hc])
      have h2 : k ∉ rest.map RawResult.short_id := by
        intro hc
        exact h (by simp [hc])
      simp only [process_papers]
      rw [ih _ h2, dictLookup_insert_other _ _ _ _ h1]

theorem process_papers_keys_mono (m : PapersDict) (rs : List RawResult)
    (k : Str) (h : k ∈ dictKeys m) : k ∈ dictKeys (process_papers m rs).1 := by
  induction rs generalizing m with
  | nil => simpa [process_papers] using h
  | cons r rest ih =>
      simp only [process_papers]
      refine ih _ ?_
      rw [dictKeys_insert]
      by_cases hm : r.short_id ∈ dictKeys m
      · simpa [hm] using h
      · rw [if_neg hm]
        exact List.mem_append_left _ h

theorem process_papers_nodup (m : PapersDict) (rs : List RawResult)
    (h : (dictKeys m).Nodup) : (dictKeys (process_papers m rs).1).Nodup := by
  induction rs generalizing m with
  | nil => simpa [process_papers] using h
  | cons r rest ih =>
      simp only [process_papers]
      exact ih _ (dictKeys_insert_nodup _ _ _ h)

theorem lookupNsFile_setNs_self (root : PapersRoot) (ns : Str) (m : PapersDict) :
    lookupNsFile (setNs root ns m) ns = NsFile.valid m := by
  induction root with
  | nil => simp [setNs, lookupNsFile, findEntry]
  | cons e rest ih =>
      by_cases h : e.name = ns
      · simp [setNs, lookupNsFile, findEntry, h]
      · simpa [setNs, lookupNsFile, findEntry, h] using ih

theorem search_papers_eq_some (root : PapersRoot) (topic : Str)
    (rs : List RawResult) (root2 : PapersRoot) (ids : List Str)
    (h : search_papers root topic rs = some (root2, ids)) :
    root2 = setNs root (normalizeTopic topic)
        (process_papers (currentDict root (normalizeTopic topic)) rs).1
    ∧ ids = rs.map RawResult.short_id := by
  cases hfind : findEntry root (normalizeTopic topic) with
  | none =>
      simp only [search_papers, hfind] at h
      simp only [Option.some.injEq, Prod.mk.injEq] at h
      constructor
      · rw [← h.1]
        simp [currentDict, lookupNsFile, hfind, loadOrEmpty]
      · rw [← h.2, process_papers_snd]
  | some e =>
      by_cases hdir : e.isDir = true
      · simp only [search_papers, hfind, hdir, if_true] at h
        simp only [Option.some.injEq, Prod.mk.injEq] at h
        constructor
        · rw [← h.1]
          simp [currentDict, lookupNsFile, hfind, hdir]
        · rw [← h.2, process_papers_snd]
      · simp [search_papers, hfind, hdir] at h

theorem currentDict_after_search (root : PapersRoot) (topic : Str)
    (rs : List RawResult) (root2 : PapersRoot) (ids : List Str)
    (h : search_papers root topic rs = some (root2, ids)) :
    currentDict root2 (normalizeTopic topic) =
      (process_papers (currentDict root (normalizeTopic topic)) rs).1 := by
  rw [(search_papers_eq_some root topic rs root2 ids h).1]
  simp [currentDict, lookupNsFile_setNs_self, loadOrEmpty]

/-! ## Claim C3 -/

/-- C3: for every topic and every finite sequence of raw search results, a
successful `search_papers` call returns exactly the sequence of ids of the
input results, in input order, one returned id per occurrence (duplicates
included once per occurrence). -/
theorem upsert_returns_ids_in_order (root : PapersRoot) (topic : Str)
    (results : List RawResult) (root2 : PapersRoot) (ids : List Str)
    (h : search_papers root topic results = some (root2, ids)) :
    ids = results.map RawResult.short_id :=
  (search_papers_eq_some root topic results root2 ids h).2

/-- Witness for C3: a concrete run with a duplicated id returns it twice, in
input order. -/
theorem upsert_returns_ids_in_order_witness :
    search_papers [] (lit "t")
        [RawResult.mk (lit "p") (lit "T1") [] (lit "s1") (lit "u1") (lit "d1"),
         RawResult.mk (lit "p") (lit "T2") [] (lit "s2") (lit "u2") (lit "d2")]
      = some ([RootEntry.mk (lit "t") true (NsFile.valid
          [(lit "p", PaperInfo.mk (lit "T2") [] (lit "s2") (lit "u2") (lit "d2"))])],
        [lit "p", lit "p"])
    ∧ [lit "p", lit "p"] =
        [RawResult.mk (lit "p") (lit "T1") [] (lit "s1") (lit "u1") (lit "d1"),
         RawResult.mk (lit "p") (lit "T2") [] (lit "s2") (lit "u2") (lit "d2")].map
          RawResult.short_id :=
  ⟨rfl, upsert_returns_ids_in_order [] (lit "t") _ _ _ rfl⟩

/-! ## Claim C1 -/

/-- C1: upserting twice into the same topic with a single result under the
same id leaves exactly one record under that id in the persisted mapping,
and its value is the full record built from the second call's result: the
old record is overwritten wholesale, not merged field-by-field. -/
theorem upsert_last_write_wins (root : PapersRoot) (topic : Str)
    (r1 r2 : RawResult) (root1 root2 : PapersRoot) (ids1 ids2 : List Str)
    (hid : r1.short_id = r2.short_id)
    (hnd : (dictKeys (currentDict root (normalizeTopic topic))).Nodup)
    (h1 : search_papers root topic [r1] = some (root1, ids1))
    (h2 : search_papers root1 topic [r2] = some (root2, ids2)) :
    countKey (currentDict root2 (normalizeTopic topic)) r2.short_id = 1
    ∧ dictLookup (currentDict root2 (normalizeTopic topic)) r2.short_id
        = some (toPaperInfo r2)
    ∧ dictLookup (currentDict root2 (normalizeTopic topic)) r1.short_id
        = some (toPaperInfo r2) := by
  have e1 := currentDict_after_search root topic [r1] root1 ids1 h1
  have e2 := currentDict_after_search root1 topic [r2] root2 ids2 h2
  have hp : ∀ (m : PapersDict) (r : RawResult),
      (process_papers m [r]).1 = dictInsert m r.short_id (toPaperInfo r) := by
    intro m r
    simp [process_papers]
  rw [hp] at e1 e2
  rw [e1] at e2
  have hlook : dictLookup (currentDict root2 (normalizeTopic topic)) r2.short_id
      = some (toPaperInfo r2) := by
    rw [e2]
    exact dictLookup_insert_self _ _ _
  refine ⟨?_, hlook, ?_⟩
  · have hnd2 : (dictKeys (currentDict root2 (normalizeTopic topic))).Nodup := by
      rw [e2]
      exact dictKeys_insert_nodup _ _ _ (dictKeys_insert_nodup _ _ _ hnd)
    exact countKey_eq_one _ _ _ hnd2 hlook
  · rw [hid]
    exact hlook

/-- Witness for C1: two concrete calls with the same id; the namespace ends
with one binding for that id, holding the second call's field values. -/
theorem upsert_last_write_wins_witness :
    countKey (currentDict
        [RootEntry.mk (lit "t") true (NsFile.valid
          [(lit "p", PaperInfo.mk (lit "T2") [lit "A2"] (lit "s2") (lit "u2") (lit "d2"))])]
        (normalizeTopic (lit "t"))) (lit "p") = 1
    ∧ dictLookup (currentDict
        [RootEntry.mk (lit "t") true (NsFile.valid
          [(lit "p", PaperInfo.mk (lit "T2") [lit "A2"] (lit "s2") (lit "u2") (lit "d2"))])]
        (normalizeTopic (lit "t"))) (lit "p")
      = some (PaperInfo.mk (lit "T2") [lit "A2"] (lit "s2") (lit "u2") (lit "d2"))
    ∧ dictLookup (currentDict
        [RootEntry.mk (lit "t") true (NsFile.valid
          [(lit "p", PaperInfo.mk (lit "T2") [lit "A2"] (lit "s2") (lit "u2") (lit "d2"))])]
        (normalizeTopic (lit "t"))) (lit "p")
      = some (PaperInfo.mk (lit "T2") [lit "A2"] (lit "s2") (lit "u2") (lit "d2")) :=
  upsert_last_write_wins [] (lit "t")
    (RawResult.mk (lit "p") (lit "T1") [lit "A1"] (lit "s1") (lit "u1") (lit "d1"))
    (RawResult.mk (lit "p") (lit "T2") [lit "A2"] (lit "s2") (lit "u2") (lit "d2"))
    [RootEntry.mk (lit "t") true (NsFile.valid
      [(lit "p", PaperInfo.mk (lit "T1") [lit "A1"] (lit "s1") (lit "u1") (lit "d1"))])]
    [RootEntry.mk (lit "t") true (NsFile.valid
      [(lit "p", PaperInfo.mk (lit "T2") [lit "A2"] (lit "s2") (lit "u2") (lit "d2"))])]
    [lit "p"] [lit "p"] rfl (by decide) rfl rfl

/-! ## Claim C2 -/

/-- C2: an upsert into a namespace whose file is present and well-formed
preserves every stored record whose id is not among the input results, the
key set grows monotonically, and in particular upserting `[A]` then `[B]`
with distinct ids leaves both records in the namespace. -/
theorem upsert_merge_monotone :
    (∀ (root : PapersRoot) (topic : Str) (rs : List RawResult)
        (root2 : PapersRoot) (ids : List Str) (m0 : PapersDict),
      lookupNsFile root (normalizeTopic topic) = NsFile.valid m0 →
      search_papers root topic rs = some (root2, ids) →
      (∀ k v, dictLookup m0 k = some v → k ∉ rs.map RawResult.short_id →
        dictLookup (currentDict root2 (normalizeTopic topic)) k = some v)
      ∧ (∀ k, k ∈ dictKeys m0 →
        k ∈ dictKeys (currentDict root2 (normalizeTopic topic))))
    ∧ (∀ (root : PapersRoot) (topic : Str) (A B : RawResult)
        (root1 root2 : PapersRoot) (ids1 ids2 : List Str),
      A.short_id ≠ B.short_id →
      search_papers root topic [A] = some (root1, ids1) →
      search_papers root1 topic [B] = some (root2, ids2) →
      dictLookup (currentDict root2 (normalizeTopic topic)) A.short_id
          = some (toPaperInfo A)
      ∧ dictLookup (currentDict root2 (normalizeTopic topic)) B.short_id
          = some (toPaperInfo B)) := by
  constructor
  · intro root topic rs root2 ids m0 hvalid hs
    have hcur : currentDict root (normalizeTopic topic) = m0 := by
      simp [currentDict, hvalid, loadOrEmpty]
    have e := currentDict_after_search root topic rs root2 ids hs
    rw [hcur] at e
    constructor
    · intro k v hk hnot
      rw [e, process_papers_lookup_not_mem _ _ _ hnot]
      exact hk
    · intro k hk
      rw [e]
      exact process_papers_keys_mono _ _ _ hk
  · intro root topic A B root1 root2 ids1 ids2 hne h1 h2
    have e1 := currentDict_after_search root topic [A] root1 ids1 h1
    have e2 := currentDict_after_search root1 topic [B] root2 ids2 h2
    have hp : ∀ (m : PapersDict) (r : RawResult),
        (process_papers m [r]).1 = dictInsert m r.short_id (toPaperInfo r) := by
      intro m r
      simp [process_papers]
    rw [hp] at e1 e2
    rw [e1] at e2
    constructor
    · rw [e2, dictLookup_insert_other _ _ _ _ hne]
      exact dictLookup_insert_self _ _ _
    · rw [e2]
      exact dictLookup_insert_self _ _ _

/-- Witness for C2: a concrete namespace holding record `q`; upserting `A`
then `B` (ids `a`, `b`) preserves `q` and stores both new records. -/
theorem upsert_merge_monotone_witness :
    (dictLookup (currentDict
        [RootEntry.mk (lit "t") true (NsFile.valid
          [(lit "q", PaperInfo.mk (lit "Tq") [] (lit "sq") (lit "uq") (lit "dq")),
           (lit "a", PaperInfo.mk (lit "Ta") [] (lit "sa") (lit "ua") (lit "da"))])]
        (normalizeTopic (lit "t"))) (lit "q")
      = some (PaperInfo.mk (lit "Tq") [] (lit "sq") (lit "uq") (lit "dq")))
    ∧ dictLookup (currentDict
        [RootEntry.mk (lit "t") true (NsFile.valid
          [(lit "a", PaperInfo.mk (lit "Ta") [] (lit "sa") (lit "ua") (lit "da")),
           (lit "b", PaperInfo.mk (lit "Tb") [] (lit "sb") (lit "ub") (lit "db"))])]
        (normalizeTopic (lit "t"))) (lit "a")
      = some (PaperInfo.mk (lit "Ta") [] (lit "sa") (lit "ua") (lit "da")) := by
  constructor
  · exact (upsert_merge_monotone.1
      [RootEntry.mk (lit "t") true (NsFile.valid
        [(lit "q", PaperInfo.mk (lit "Tq") [] (lit "sq") (lit "uq") (lit "dq"))])]
      (lit "t")
      [RawResult.mk (lit "a") (lit "Ta") [] (lit "sa") (lit "ua") (lit "da")]
      [RootEntry.mk (lit "t") true (NsFile.valid
        [(lit "q", PaperInfo.mk (lit "Tq") [] (lit "sq") (lit "uq") (lit "dq")),
         (lit "a", PaperInfo.mk (lit "Ta") [] (lit "sa") (lit "ua") (lit "da"))])]
      [lit "a"]
      [(lit "q", PaperInfo.mk (lit "Tq") [] (lit "sq") (lit "uq") (lit "dq"))]
      rfl rfl).1 (lit "q")
      (PaperInfo.mk (lit "Tq") [] (lit "sq") (lit "uq") (lit "dq")) rfl (by decide)
  · exact ((upsert_merge_monotone.2
      [] (lit "t")
      (RawResult.mk (lit "a") (lit "Ta") [] (lit "sa") (lit "ua") (lit "da"))
      (RawResult.mk (lit "b") (lit "Tb") [] (lit "sb") (lit "ub") (lit "db"))
      [RootEntry.mk (lit "t") true (NsFile.valid
        [(lit "a", PaperInfo.mk (lit "Ta") [] (lit "sa") (lit "ua") (lit "da"))])]
      [RootEntry.mk (lit "t") true (NsFile.valid
        [(lit "a", PaperInfo.mk (lit "Ta") [] (lit "sa") (lit "ua") (lit "da")),
         (lit "b", PaperInfo.mk (lit "Tb") [] (lit "sb") (lit "ub") (lit "db"))])]
      [lit "a"] [lit "b"] (by decide) rfl rfl).1)

/-! ## Claim C7 -/

/-- C7: when the namespace's persisted file is absent or unparseable (and
nothing blocks creating the directory), `search_papers` completes: it
starts from the empty mapping and the persisted result holds exactly the
records built from this call's inputs. -/
theorem upsert_corrupt_recovery (root : PapersRoot) (topic : Str)
    (rs : List RawResult)
    (hclean : lookupNsFile root (normalizeTopic topic) = NsFile.missing
      ∨ lookupNsFile root (normalizeTopic topic) = NsFile.corrupt)
    (hdir : ∀ e, findEntry root (normalizeTopic topic) = some e → e.isDir = true) :
    search_papers root topic rs
        = some (setNs root (normalizeTopic topic) (process_papers [] rs).1,
            rs.map RawResult.short_id)
    ∧ currentDict (setNs root (normalizeTopic topic) (process_papers [] rs).1)
        (normalizeTopic topic) = (process_papers [] rs).1 := by
  constructor
  · cases hfind : findEntry root (normalizeTopic topic) with
    | none =>
        simp only [search_papers, hfind]
        rw [process_papers_snd]
    | some e =>
        have hd := hdir e hfind
        have hfile : lookupNsFile root (normalizeTopic topic) = e.nsFile := by
          simp [lookupNsFile, hfind, hd]
        have hload : loadOrEmpty e.nsFile = [] := by
          rw [hfile] at hclean
          rcases hclean with hmiss | hcorr
          · rw [hmiss]
            rfl
          · rw [hcorr]
            rfl
        simp only [search_papers, hfind]
        rw [if_pos hd, hload, process_papers_snd]
  · simp [currentDict, lookupNsFile_setNs_self, loadOrEmpty]

/-- Witness for C7: a topic whose namespace file is corrupt; the call
succeeds and persists exactly this call's single record. -/
theorem upsert_corrupt_recovery_witness :
    search_papers [RootEntry.mk (lit "t") true NsFile.corrupt] (lit "t")
        [RawResult.mk (lit "p") (lit "T") [] (lit "s") (lit "u") (lit "d")]
      = some (setNs [RootEntry.mk (lit "t") true NsFile.corrupt] (normalizeTopic (lit "t"))
          (process_papers []
            [RawResult.mk (lit "p") (lit "T") [] (lit "s") (lit "u") (lit "d")]).1,
          [RawResult.mk (lit "p") (lit "T") [] (lit "s") (lit "u") (lit "d")].map
            RawResult.short_id)
    ∧ currentDict (setNs [RootEntry.mk (lit "t") true NsFile.corrupt] (normalizeTopic (lit "t"))
          (process_papers []
            [RawResult.mk (lit "p") (lit "T") [] (lit "s") (lit "u") (lit "d")]).1)
        (normalizeTopic (lit "t"))
      = (process_papers []
          [RawResult.mk (lit "p") (lit "T") [] (lit "s") (lit "u") (lit "d")]).1 :=
  upsert_corrupt_recovery [RootEntry.mk (lit "t") true NsFile.corrupt] (lit "t")
    [RawResult.mk (lit "p") (lit "T") [] (lit "s") (lit "u") (lit "d")]
    (Or.inr rfl)
    (fun e he => by cases he; rfl)

/-! ## Claim C4 -/

/-- C4: the namespace name is derived by lower-casing and replacing spaces
with underscores; any two topics equal up to letter case derive the same
namespace (e.g. both forms of "Quantum Computing" give `quantum_computing`),
and a read through `lookupNsFile` — exactly what `get_topic_papers` branches
on — with either spelling sees the mapping just persisted by
`search_papers` with the other. -/
theorem namespace_derivation_consistent :
    (∀ t1 t2 : Str, lowerStr t1 = lowerStr t2 →
      normalizeTopic t1 = normalizeTopic t2)
    ∧ normalizeTopic (lit "Quantum Computing") = lit "quantum_computing"
    ∧ normalizeTopic (lit "quantum computing") = lit "quantum_computing"
    ∧ (∀ (root : PapersRoot) (t1 t2 : Str) (rs : List RawResult)
        (root2 : PapersRoot) (ids : List Str),
      lowerStr t1 = lowerStr t2 →
      search_papers root t1 rs = some (root2, ids) →
      lookupNsFile root2 (normalizeTopic t2)
        = NsFile.valid (process_papers (currentDict root (normalizeTopic t1)) rs).1) := by
  refine ⟨?_, by decide, by decide, ?_⟩
  · intro t1 t2 h
    unfold normalizeTopic
    rw [h]
  · intro root t1 t2 rs root2 ids hcase hs
    have heq : normalizeTopic t1 = normalizeTopic t2 := by
      unfold normalizeTopic
      rw [hcase]
    rw [← heq, (search_papers_eq_some root t1 rs root2 ids hs).1,
      lookupNsFile_setNs_self]

/-- Witness for C4: writing under "A b" and reading under "a B" resolve to
the same namespace `a_b` and see the same stored record. -/
theorem namespace_derivation_consistent_witness :
    normalizeTopic (lit "A b") = normalizeTopic (lit "a B")
    ∧ lookupNsFile
        [RootEntry.mk (lit "a_b") true (NsFile.valid
          [(lit "p", PaperInfo.mk (lit "T") [] (lit "s") (lit "u") (lit "d"))])]
        (normalizeTopic (lit "a B"))
      = NsFile.valid [(lit "p", PaperInfo.mk (lit "T") [] (lit "s") (lit "u") (lit "d"))] := by
  constructor
  · exact namespace_derivation_consistent.1 (lit "A b") (lit "a B") (by decide)
  · exact namespace_derivation_consistent.2.2.2 [] (lit "A b") (lit "a B")
      [RawResult.mk (lit "p") (lit "T") [] (lit "s") (lit "u") (lit "d")]
      [RootEntry.mk (lit "a_b") true (NsFile.valid
        [(lit "p", PaperInfo.mk (lit "T") [] (lit "s") (lit "u") (lit "d"))])]
      [lit "p"] (by decide) rfl

/-! ## Claim C5 -/

/-- C5 counterexample: in the fresh state where the papers root directory
does not exist — so no namespace stores any id — `extract_info` does not
return the not-found result: `os.listdir(PAPER_DIR)` sits outside the try
block and raises `FileNotFoundError` (modelled as `none`), refuting
"never a thrown error ... for every state of the papers root". -/
theorem extract_info_missing_root_raises :
    extract_info PapersFS.absent (lit "p") = none
    ∧ extract_info PapersFS.absent (lit "p") ≠ some (notFoundMsg (lit "p")) :=
  ⟨rfl, fun h => Option.noConfusion h⟩

/-- C5 amended: when the papers root directory exists and no valid
namespace stores the queried id, `extract_info` returns — never throws —
the not-found sentence, which carries the queried id; missing and
unparseable namespace files and non-directory entries are skipped. When
the papers root directory itself is absent, the call instead raises
(`os.listdir` is outside the try block). -/
theorem extract_info_not_found (root : PapersRoot) (paper_id : Str)
    (h : ∀ e ∈ root, e.isDir = true → ∀ m, e.nsFile = NsFile.valid m →
      dictLookup m paper_id = none) :
    extract_info (PapersFS.present root) paper_id = some (notFoundMsg paper_id)
    ∧ (∃ a b : Str, extract_info (PapersFS.present root) paper_id
        = some (a ++ paper_id ++ b))
    ∧ extract_info PapersFS.absent paper_id = none := by
  have key : extract_info_loop root paper_id = notFoundMsg paper_id := by
    induction root with
    | nil => rfl
    | cons e rest ih =>
        have ih2 := ih (fun e2 he2 => h e2 (List.mem_cons_of_mem _ he2))
        cases hd : e.isDir with
        | false => simpa [extract_info_loop, hd] using ih2
        | true =>
            cases hnf : e.nsFile with
            | missing => simpa [extract_info_loop, hd, hnf] using ih2
            | corrupt => simpa [extract_info_loop, hd, hnf] using ih2
            | valid m =>
                have hz := h e (List.mem_cons_self _ _) hd m hnf
                simpa [extract_info_loop, hd, hnf, hz] using ih2
  refine ⟨?_, ⟨lit "There\x27s no saved information related to paper ",
    lit ".", ?_⟩, rfl⟩
  · show some (extract_info_loop root paper_id) = some (notFoundMsg paper_id)
    rw [key]
  · show some (extract_info_loop root paper_id) = _
    rw [key]
    rfl

/-- Witness for C5 (amended): a present root with one valid namespace
(storing a different id), one corrupt one and one non-directory entry; the
lookup returns the not-found sentence rather than raising. -/
theorem extract_info_not_found_witness :
    extract_info
        (PapersFS.present
          [RootEntry.mk (lit "a") true (NsFile.valid
            [(lit "q", PaperInfo.mk (lit "T") [] (lit "s") (lit "u") (lit "d"))]),
           RootEntry.mk (lit "b") true NsFile.corrupt,
           RootEntry.mk (lit "c") false NsFile.missing])
        (lit "p")
      = some (notFoundMsg (lit "p")) := by
  refine (extract_info_not_found _ (lit "p") ?_).1
  intro e he hd m hnf
  rcases List.mem_cons.mp he with rfl | he2
  · cases hnf
    decide
  · rcases List.mem_cons.mp he2 with rfl | he3
    · cases hnf
    · rcases List.mem_cons.mp he3 with rfl | he4
      · cases hnf
      · cases he4

/-! ## Claim C6 -/

/-- C6: `get_topic_papers` returns the no-papers message when the namespace
file does not exist, the distinct corruption message when it exists but
fails to parse; both are renderable strings (total function), and the two
messages differ for every topic. -/
theorem topic_renderer_fallback_messages (root : PapersRoot) (topic : Str) :
    (lookupNsFile root (normalizeTopic topic) = NsFile.missing →
      get_topic_papers root topic = noPapersMsg topic)
    ∧ (lookupNsFile root (normalizeTopic topic) = NsFile.corrupt →
      get_topic_papers root topic = corruptMsg topic)
    ∧ noPapersMsg topic ≠ corruptMsg topic := by
  refine ⟨?_, ?_, ?_⟩
  · intro h
    simp [get_topic_papers, h]
  · intro h
    simp [get_topic_papers, h]
  · intro h
    have t1 : (noPapersMsg topic).take 3 = lit "# N" := rfl
    have t2 : (corruptMsg topic).take 3 = lit "# E" := rfl
    rw [h, t2] at t1
    exact absurd t1 (by decide)

/-- Witness for C6: a topic with no namespace gives the no-papers message;
the same topic with a corrupt file gives the corruption message; the
messages differ. -/
theorem topic_renderer_fallback_messages_witness :
    get_topic_papers [] (lit "t") = noPapersMsg (lit "t")
    ∧ get_topic_papers [RootEntry.mk (lit "t") true NsFile.corrupt] (lit "t")
        = corruptMsg (lit "t")
    ∧ noPapersMsg (lit "t") ≠ corruptMsg (lit "t") :=
  ⟨(topic_renderer_fallback_messages [] (lit "t")).1 rfl,
   (topic_renderer_fallback_messages [RootEntry.mk (lit "t") true NsFile.corrupt]
      (lit "t")).2.1 rfl,
   (topic_renderer_fallback_messages [] (lit "t")).2.2⟩

/-! ## Rendering decomposition -/

theorem renderAll_append (l1 l2 : PapersDict) :
    renderAll (l1 ++ l2) = renderAll l1 ++ renderAll l2 := by
  induction l1 with
  | nil => simp [renderAll]
  | cons p rest ih =>
      obtain ⟨paper_id, q⟩ := p
      simp [renderAll, ih]

theorem renderAll_summary_decomp (m : PapersDict) (paper_id : Str) (p : PaperInfo)
    (hmem : (paper_id, p) ∈ m) :
    ∃ a b : Str, renderAll m = a ++ (p.summary.take 500 ++ lit "...") ++ b := by
  obtain ⟨m1, m2, rfl⟩ := List.append_of_mem hmem
  refine ⟨renderAll m1 ++ (lit "## " ++ p.title ++ lit "\n"
      ++ lit "- **Paper ID**: " ++ paper_id ++ lit "\n"
      ++ lit "- **Authors**: " ++ joinAuthors p.authors ++ lit "\n"
      ++ lit "- **Published**: " ++ p.published ++ lit "\n"
      ++ lit "- **PDF URL**: [" ++ p.pdf_url ++ lit "](" ++ p.pdf_url ++ lit ")\n\n"
      ++ lit "### Summary\n"),
    lit "\n\n" ++ lit "---\n\n" ++ renderAll m2, ?_⟩
  rw [renderAll_append]
  have hr : renderAll ((paper_id, p) :: m2)
      = renderPaper paper_id p ++ renderAll m2 := rfl
  rw [hr]
  have hsplit : (lit "...\n\n" : Str) = lit "..." ++ lit "\n\n" := rfl
  simp only [renderPaper, hsplit, List.append_assoc]

theorem get_topic_papers_decomp (root : PapersRoot) (topic : Str)
    (m : PapersDict) (paper_id : Str) (p : PaperInfo)
    (hv : lookupNsFile root (normalizeTopic topic) = NsFile.valid m)
    (hmem : (paper_id, p) ∈ m) :
    ∃ a b : Str, get_topic_papers root topic
      = a ++ (p.summary.take 500 ++ lit "...") ++ b := by
  obtain ⟨a, b, hab⟩ := renderAll_summary_decomp m paper_id p hmem
  refine ⟨(lit "# Papers on " ++ titleStr (underscoresToSpaces topic) ++ lit "\n\n"
      ++ lit "Total papers: " ++ natToStr m.length ++ lit "\n\n") ++ a, b, ?_⟩
  simp only [get_topic_papers, hv]
  rw [hab]
  simp only [List.append_assoc]

/-! ## Claim C8 -/

/-- C8: for a stored record whose summary exceeds 500 characters, the
rendered topic page contains exactly the first 500 characters of that
summary followed by the ellipsis marker; the truncation is display-only —
`get_topic_papers` returns a string and never writes, and the full summary
is recoverable as the rendered prefix plus the untouched remainder. -/
theorem render_summary_truncated (root : PapersRoot) (topic : Str)
    (m : PapersDict) (paper_id : Str) (p : PaperInfo)
    (hv : lookupNsFile root (normalizeTopic topic) = NsFile.valid m)
    (hmem : (paper_id, p) ∈ m)
    (hlen : 500 < p.summary.length) :
    (∃ a b : Str, get_topic_papers root topic
        = a ++ (p.summary.take 500 ++ lit "...") ++ b)
    ∧ (p.summary.take 500).length = 500
    ∧ p.summary.take 500 ++ p.summary.drop 500 = p.summary := by
  refine ⟨get_topic_papers_decomp root topic m paper_id p hv hmem, ?_,
    List.take_append_drop 500 p.summary⟩
  rw [List.length_take]
  omega

/-- Witness for C8: a namespace holding one record with a 501-character
summary; its page shows the 500-character prefix plus the marker. -/
theorem render_summary_truncated_witness :
    (∃ a b : Str, get_topic_papers
        [RootEntry.mk (lit "t") true (NsFile.valid
          [(lit "p", PaperInfo.mk (lit "T") [] (List.replicate 501 's')
            (lit "u") (lit "d"))])] (lit "t")
      = a ++ ((List.replicate 501 's').take 500 ++ lit "...") ++ b)
    ∧ ((List.replicate 501 's').take 500).length = 500
    ∧ (List.replicate 501 's').take 500 ++ (List.replicate 501 's').drop 500
        = List.replicate 501 's' :=
  render_summary_truncated
    [RootEntry.mk (lit "t") true (NsFile.valid
      [(lit "p", PaperInfo.mk (lit "T") [] (List.replicate 501 's')
        (lit "u") (lit "d"))])] (lit "t")
    [(lit "p", PaperInfo.mk (lit "T") [] (List.replicate 501 's')
      (lit "u") (lit "d"))]
    (lit "p")
    (PaperInfo.mk (lit "T") [] (List.replicate 501 's') (lit "u") (lit "d"))
    rfl (List.mem_singleton.mpr rfl) (by rw [List.length_replicate]; omega)

/-! ## Claim C10 -/

/-- C10: the ellipsis marker is appended to the displayed summary
unconditionally: every rendered record's section carries it, and a record
whose summary is at most 500 characters is rendered in full and is still
followed by the marker. -/
theorem render_ellipsis_unconditional :
    (∀ (paper_id : Str) (p : PaperInfo), ∃ a b : Str,
      renderPaper paper_id p = a ++ lit "..." ++ b)
    ∧ (∀ (root : PapersRoot) (topic : Str) (m : PapersDict)
        (paper_id : Str) (p : PaperInfo),
      lookupNsFile root (normalizeTopic topic) = NsFile.valid m →
      (paper_id, p) ∈ m →
      p.summary.length ≤ 500 →
      ∃ a b : Str, get_topic_papers root topic
        = a ++ (p.summary ++ lit "...") ++ b) := by
  constructor
  · intro paper_id p
    refine ⟨lit "## " ++ p.title ++ lit "\n"
        ++ lit "- **Paper ID**: " ++ paper_id ++ lit "\n"
        ++ lit "- **Authors**: " ++ joinAuthors p.authors ++ lit "\n"
        ++ lit "- **Published**: " ++ p.published ++ lit "\n"
        ++ lit "- **PDF URL**: [" ++ p.pdf_url ++ lit "](" ++ p.pdf_url ++ lit ")\n\n"
        ++ lit "### Summary\n" ++ p.summary.take 500,
      lit "\n\n" ++ lit "---\n\n", ?_⟩
    have hsplit : (lit "...\n\n" : Str) = lit "..." ++ lit "\n\n" := rfl
    simp only [renderPaper, hsplit, List.append_assoc]
  · intro root topic m paper_id p hv hmem hlen
    obtain ⟨a, b, hab⟩ := get_topic_papers_decomp root topic m paper_id p hv hmem
    rw [List.take_of_length_le hlen] at hab
    exact ⟨a, b, hab⟩

/-- Witness for C10: a record with the 1-character summary `s` is rendered
in full and still followed by `...`. -/
theorem render_ellipsis_unconditional_witness :
    ∃ a b : Str, get_topic_papers
        [RootEntry.mk (lit "t") true (NsFile.valid
          [(lit "p", PaperInfo.mk (lit "T") [] (lit "s") (lit "u") (lit "d"))])]
        (lit "t")
      = a ++ (lit "s" ++ lit "...") ++ b :=
  render_ellipsis_unconditional.2
    [RootEntry.mk (lit "t") true (NsFile.valid
      [(lit "p", PaperInfo.mk (lit "T") [] (lit "s") (lit "u") (lit "d"))])]
    (lit "t")
    [(lit "p", PaperInfo.mk (lit "T") [] (lit "s") (lit "u") (lit "d"))]
    (lit "p")
    (PaperInfo.mk (lit "T") [] (lit "s") (lit "u") (lit "d"))
    rfl (List.mem_singleton.mpr rfl) (by decide)

/-! ## Claim C9 -/

theorem mem_qualifying (root : PapersRoot) (e : RootEntry)
    (he : e ∈ root) (hd : e.isDir = true) (hp : nsFilePresent e.nsFile = true) :
    e.name ∈ qualifying root := by
  induction root with
  | nil => cases he
  | cons f rest ih =>
      rcases List.mem_cons.mp he with rfl | he2
      · simp only [qualifying, hd, hp, Bool.and_self, if_true]
        exact List.mem_cons_self _ _
      · by_cases hc : (f.isDir && nsFilePresent f.nsFile) = true
        · simp only [qualifying, hc, if_true]
          exact List.mem_cons_of_mem _ (ih he2)
        · simp only [qualifying, hc, if_false]
          exact ih he2

theorem renderFolderLines_decomp (fs : List Str) (n : Str) (hmem : n ∈ fs) :
    ∃ a b : Str, renderFolderLines fs = a ++ (lit "- " ++ n ++ lit "\n") ++ b := by
  induction fs with
  | nil => cases hmem
  | cons f rest ih =>
      rcases List.mem_cons.mp hmem with rfl | h2
      · refine ⟨[], renderFolderLines rest, ?_⟩
        simp only [renderFolderLines, List.nil_append, List.append_assoc]
      · obtain ⟨a, b, hab⟩ := ih h2
        refine ⟨lit "- " ++ f ++ lit "\n" ++ a, b, ?_⟩
        simp only [renderFolderLines, hab, List.append_assoc]

theorem qualifying_mem_inv (root : PapersRoot) (n : Str)
    (h : n ∈ qualifying root) :
    ∃ e, e ∈ root ∧ e.name = n ∧ e.isDir = true
      ∧ nsFilePresent e.nsFile = true := by
  induction root with
  | nil => cases h
  | cons f rest ih =>
      by_cases hc : (f.isDir && nsFilePresent f.nsFile) = true
      · simp only [qualifying, hc, if_true] at h
        rcases List.mem_cons.mp h with rfl | h2
        · exact ⟨f, List.mem_cons_self _ _, rfl,
            (Bool.and_eq_true_iff.mp hc).1, (Bool.and_eq_true_iff.mp hc).2⟩
        · obtain ⟨e, he, h1, h2b, h3⟩ := ih h2
          exact ⟨e, List.mem_cons_of_mem _ he, h1, h2b, h3⟩
      · simp only [qualifying, hc, if_false] at h
        obtain ⟨e, he, h1, h2b, h3⟩ := ih h
        exact ⟨e, List.mem_cons_of_mem _ he, h1, h2b, h3⟩

/-- C9 counterexample: the claim says a namespace is listed only if it has
a valid (parseable) mapping file, but `get_available_folders` checks mere
existence: a directory whose `papers_info.json` is unparseable is still
listed. Concretely, a root holding one directory `bad` with a corrupt file
renders a `- bad` line. -/
theorem folders_listing_includes_corrupt :
    lookupNsFile [RootEntry.mk (lit "bad") true NsFile.corrupt] (lit "bad")
        = NsFile.corrupt
    ∧ qualifying [RootEntry.mk (lit "bad") true NsFile.corrupt] = [lit "bad"]
    ∧ get_available_folders [RootEntry.mk (lit "bad") true NsFile.corrupt]
        = lit "# Available Topics\n\n- bad\n\nUse @bad to access papers in that topic.\n" :=
  ⟨rfl, rfl, rfl⟩

/-- C9 amended: `get_available_folders` includes a namespace in its listing
exactly when it is a directory-like entity whose persisted mapping file is
present (parseable or not); it renders one `- name` line per qualifying
topic in enumeration order, returns the explicit no-topics message when
none qualifies, and — being a pure function of the root — never creates or
modifies storage. -/
theorem folders_listing_spec (root : PapersRoot) :
    (qualifying root = [] →
      get_available_folders root = lit "# Available Topics\n\nNo topics found.\n")
    ∧ (∀ e ∈ root, e.isDir = true → nsFilePresent e.nsFile = true →
      ∃ a b : Str, get_available_folders root
        = a ++ (lit "- " ++ e.name ++ lit "\n") ++ b)
    ∧ (∀ n, n ∈ qualifying root →
      ∃ e, e ∈ root ∧ e.name = n ∧ e.isDir = true
        ∧ nsFilePresent e.nsFile = true) := by
  refine ⟨?_, ?_, qualifying_mem_inv root⟩
  · intro h
    simp only [get_available_folders, h]
    rfl
  · intro e he hd hp
    have hmem := mem_qualifying root e he hd hp
    cases hq : qualifying root with
    | nil =>
        rw [hq] at hmem
        cases hmem
    | cons f fs =>
        rw [hq] at hmem
        obtain ⟨a, b, hab⟩ := renderFolderLines_decomp (f :: fs) e.name hmem
        refine ⟨lit "# Available Topics\n\n" ++ a,
          b ++ (lit "\nUse @" ++ (f :: fs).getLastD []
            ++ lit " to access papers in that topic.\n"), ?_⟩
        simp only [get_available_folders, hq]
        rw [hab]
        simp only [List.append_assoc]

/-- Witness for C9 (amended): the empty root renders the no-topics message,
and a root with one directory holding a valid (empty) mapping renders its
`- a` line. -/
theorem folders_listing_spec_witness :
    get_available_folders [] = lit "# Available Topics\n\nNo topics found.\n"
    ∧ ∃ a b : Str,
      get_available_folders [RootEntry.mk (lit "a") true (NsFile.valid [])]
        = a ++ (lit "- " ++ lit "a" ++ lit "\n") ++ b :=
  ⟨(folders_listing_spec []).1 rfl,
   (folders_listing_spec [RootEntry.mk (lit "a") true (NsFile.valid [])]).2.1
     (RootEntry.mk (lit "a") true (NsFile.valid []))
     (List.mem_singleton.mpr rfl) rfl rfl⟩
